import Mathlib

/-!
# Verification of the `rust-game-of-life` core (`src/lib.rs`)

Shallow embedding of the grid/cell engine of the repository.

Modelling conventions:

* Rust `i32` coordinates become `Int` (no arithmetic here can overflow an
  `i32` for the inputs considered, and the source only compares and adds ±1).
* The `HashMap<(i32, i32), Cell>` becomes a function
  `Int × Int → Option Cell` (`CellMap`); `HashMap::insert` is pointwise
  function update, which is exactly the observable behaviour of the map
  (iteration order is modelled separately, see `Grid.next_state`).
* Rust panics (`panic!` in `toggle_cell`, `Option::unwrap` in `from_seed`)
  are modelled as `none` of an `Option` result.
* `rand::random()` in `Grid::random` is modelled by an explicit boolean
  oracle `coin : Int × Int → Bool`, one draw per loop iteration (= per key).
* `Grid::next_state` iterates over the pristine `self.cells` in an
  unspecified `HashMap` iteration order while reading neighbour counts from
  (and writing into) the clone `this`.  The iteration order is therefore an
  explicit parameter `order : List (Int × Int)`; the real executions are
  those where `order` is a permutation of the grid's key set.
-/

/-- `Cell` of `src/lib.rs`: a coordinate pair plus an `is_alive` flag. -/
structure Cell where
  x : Int
  y : Int
  is_alive : Bool
deriving DecidableEq

/-- `Cell::new`. -/
def Cell.new (x y : Int) (is_alive : Bool) : Cell :=
  { x := x, y := y, is_alive := is_alive }

/-- `Cell::toggle`: flips `is_alive` and returns the cell. -/
def Cell.toggle (c : Cell) : Cell :=
  { c with is_alive := !c.is_alive }

/-- `Cell::next_state`: the rule-table `match` of the source, verbatim
(`(true, 0 | 1) => dead`, `(true, 2 | 3) => alive`, `(true, _) => dead`,
`(false, 3) => alive`, `(false, _) => dead`). -/
def Cell.next_state (c : Cell) (live_neighbour_count : Nat) : Cell :=
  match c.is_alive, live_neighbour_count with
  | true, 0 => { c with is_alive := false }
  | true, 1 => { c with is_alive := false }
  | true, 2 => { c with is_alive := true }
  | true, 3 => { c with is_alive := true }
  | true, _ => { c with is_alive := false }
  | false, 3 => { c with is_alive := true }
  | false, _ => { c with is_alive := false }

/-- The observable content of the `HashMap<(i32, i32), Cell>`. -/
abbrev CellMap : Type := Int × Int → Option Cell

/-- `HashMap::insert` (update-or-add at a key). -/
def CellMap.insert (m : CellMap) (k : Int × Int) (c : Cell) : CellMap :=
  fun p => if p = k then some c else m p

/-- The empty map `HashMap::new()`. -/
def CellMap.empty : CellMap := fun _ => none

/-- The keys visited by the nested loops `for y in 0..height { for x in
0..width }`, in loop order. -/
def rectKeys (width height : Int) : List (Int × Int) :=
  (List.range height.toNat).flatMap
    (fun y => (List.range width.toNat).map (fun x => ((x : Int), (y : Int))))

/-- `Grid` of `src/lib.rs`. -/
structure Grid where
  width : Int
  height : Int
  cells : CellMap

/-- The nested construction loops shared by `Grid::new` and `Grid::random`:
insert `Cell::new(x, y, alive)` at every key of the rectangle. -/
def Grid.build (width height : Int) (alive : Int × Int → Bool) : Grid :=
  { width := width, height := height,
    cells := (rectKeys width height).foldl
      (fun m k => m.insert k (Cell.new k.1 k.2 (alive k))) CellMap.empty }

/-- `Grid::new`: every cell of the rectangle dead. -/
def Grid.new (width height : Int) : Grid :=
  Grid.build width height (fun _ => false)

/-- `Grid::random`, with the per-iteration `rand::random()` draws supplied
by the oracle `coin`. -/
def Grid.random (width height : Int) (coin : Int × Int → Bool) : Grid :=
  Grid.build width height coin

/-- `Grid::cell`: plain map lookup. -/
def Grid.cell (g : Grid) (x y : Int) : Option Cell :=
  g.cells (x, y)

/-- The `coordinates` array of `Cell::neighbours`: the eight Moore offsets
of the cell's own coordinates, in source order. -/
def Cell.offsets (c : Cell) : List (Int × Int) :=
  [(c.x - 1, c.y - 1), (c.x, c.y - 1), (c.x + 1, c.y - 1),
   (c.x - 1, c.y), (c.x + 1, c.y),
   (c.x - 1, c.y + 1), (c.x, c.y + 1), (c.x + 1, c.y + 1)]

/-- `Cell::neighbours`: the eight explicit Moore offsets, looked up in the
grid and filtered through `filter_map` (absent keys contribute nothing). -/
def Cell.neighbours (c : Cell) (g : Grid) : List Cell :=
  c.offsets.filterMap (fun q => g.cell q.1 q.2)

/-- `Cell::live_neighbours_count`: length of the alive-filtered neighbour
list. -/
def Cell.live_neighbours_count (c : Cell) (g : Grid) : Nat :=
  ((c.neighbours g).filter (fun d => d.is_alive)).length

/-- `Grid::cell_neighbors`: `None` when the coordinate is absent, otherwise
the neighbour list of the stored cell. -/
def Grid.cell_neighbors (g : Grid) (x y : Int) : Option (List Cell) :=
  match g.cell x y with
  | none => none
  | some c => some (c.neighbours g)

/-- `Grid::toggle_cell`: panics (modelled `none`) when the key is absent,
otherwise inserts the toggled copy of the stored cell at the same key. -/
def Grid.toggle_cell (g : Grid) (x y : Int) : Option Grid :=
  match g.cell x y with
  | none => none
  | some c => some { g with cells := g.cells.insert (x, y) c.toggle }

/-- The loop body of `Grid::from_seed`:
`grid.cells.get_mut(&(x, y)).unwrap().toggle()` — toggle the stored cell,
or panic (modelled `none`) when the key is absent. -/
def Grid.seedStep (g : Grid) (p : Int × Int) : Option Grid :=
  match g.cells p with
  | some c => some { g with cells := g.cells.insert p c.toggle }
  | none => none

/-- `Grid::from_seed`: start from `Grid::new` and fold the toggling loop
body over the listed coordinates in order. -/
def Grid.from_seed (width height : Int) (live_cells : List (Int × Int)) :
    Option Grid :=
  live_cells.foldlM Grid.seedStep (Grid.new width height)

/-- One iteration step of `Grid::next_state`'s `for_each` closure: `key`
and `cell` come from the pristine `self.cells`, but the neighbour count is
taken from (and the result written into) the evolving buffer `this`. -/
def Grid.stepCell (g : Grid) (this : Grid) (k : Int × Int) : Grid :=
  match g.cells k with
  | some c =>
      { this with
        cells := this.cells.insert k (c.next_state (c.live_neighbours_count this)) }
  | none => this

/-- `Grid::next_state`: clone `self` into `this`, fold the per-cell step
over the (unspecified) `HashMap` iteration `order` of `self.cells`, then
replace `self.cells` by the buffer.  Real executions instantiate `order`
with a permutation of the grid's key set. -/
def Grid.next_state (g : Grid) (order : List (Int × Int)) : Grid :=
  order.foldl (fun this k => g.stepCell this k) g

/-- Modelled from the spec (§4.4): the reference *simultaneous* update —
every coordinate's next state computed from a frozen copy of the current
generation.  Present only for comparison with `Grid.next_state`; it is not
code of the repository. -/
def Grid.specNext (g : Grid) : Grid :=
  { g with
    cells := fun p => (g.cells p).map (fun c => c.next_state (c.live_neighbours_count g)) }

/-- Membership of a coordinate in the populated rectangle `[0,width) ×
[0,height)`. -/
def Grid.inRect (g : Grid) (p : Int × Int) : Prop :=
  0 ≤ p.1 ∧ p.1 < g.width ∧ 0 ≤ p.2 ∧ p.2 < g.height

instance (g : Grid) (p : Int × Int) : Decidable (g.inRect p) := by
  unfold Grid.inRect; infer_instance

/-- The structural invariant of the spec's §3: an entry exists exactly at
the coordinates of the rectangle, and each stored cell's own `(x, y)`
fields equal its key.  ("Exactly one entry per key" is inherent in the map
representation, as it is in `HashMap`.) -/
def Grid.WF (g : Grid) : Prop :=
  ∀ p : Int × Int,
    ((g.cells p).isSome ↔ g.inRect p) ∧
    ∀ c : Cell, g.cells p = some c → c.x = p.1 ∧ c.y = p.2

/-- The 5×5 blinker grid of the spec's property 7: horizontal row at
`(1,2), (2,2), (3,2)`. -/
def blinkerGrid : Grid :=
  (Grid.from_seed 5 5 [(1, 2), (2, 2), (3, 2)]).getD (Grid.new 5 5)

/-- A possible `HashMap` iteration order of the 5×5 key set that exhibits
the read-from-updated-buffer behaviour of `Grid::next_state`: the keys
`(2,1)` and `(1,1)` first, then the remaining keys. -/
def blinkerBadOrder : List (Int × Int) :=
  (2, 1) :: (1, 1) ::
    ((rectKeys 5 5).filter (fun p => p ≠ (2, 1) ∧ p ≠ (1, 1)))

/-- The 4×4 block still-life grid of the spec's property 6. -/
def blockGrid : Grid :=
  (Grid.from_seed 4 4 [(1, 1), (2, 1), (1, 2), (2, 2)]).getD (Grid.new 4 4)

/-! ## Basic lemmas about the map and the constructors -/

theorem CellMap.insert_apply (m : CellMap) (k : Int × Int) (c : Cell)
    (p : Int × Int) : (m.insert k c) p = if p = k then some c else m p := rfl

theorem mem_rectKeys {w h : Int} {p : Int × Int} :
    p ∈ rectKeys w h ↔ 0 ≤ p.1 ∧ p.1 < w ∧ 0 ≤ p.2 ∧ p.2 < h := by
  obtain ⟨px, py⟩ := p
  simp only [rectKeys]
  simp
  constructor
  · rintro ⟨a, ha, a1, ⟨a3, ha3, rfl⟩, rfl, rfl⟩
    refine ⟨by omega, by omega, by omega, by omega⟩
  · rintro ⟨h1, h2, h3, h4⟩
    exact ⟨py.toNat, by omega, px, ⟨px.toNat, by omega, by omega⟩, rfl, by omega⟩

theorem cellMap_foldl_insert (mk : Int × Int → Cell) :
    ∀ (L : List (Int × Int)) (m : CellMap) (p : Int × Int),
      (L.foldl (fun m k => m.insert k (mk k)) m) p
        = if p ∈ L then some (mk p) else m p := by
  intro L
  induction L with
  | nil => intro m p; simp
  | cons k t ih =>
      intro m p
      rw [List.foldl_cons, ih]
      by_cases hpt : p ∈ t
      · simp [hpt]
      · by_cases hpk : p = k
        · subst hpk
          simp [hpt, CellMap.insert_apply]
        · simp [hpt, hpk, CellMap.insert_apply]

theorem Grid.build_cells (w h : Int) (alive : Int × Int → Bool)
    (p : Int × Int) :
    (Grid.build w h alive).cells p
      = if 0 ≤ p.1 ∧ p.1 < w ∧ 0 ≤ p.2 ∧ p.2 < h
        then some (Cell.new p.1 p.2 (alive p)) else none := by
  show ((rectKeys w h).foldl
      (fun m k => m.insert k (Cell.new k.1 k.2 (alive k))) CellMap.empty) p = _
  rw [cellMap_foldl_insert (fun k => Cell.new k.1 k.2 (alive k))]
  simp only [mem_rectKeys, CellMap.empty]

theorem Grid.build_width (w h : Int) (alive : Int × Int → Bool) :
    (Grid.build w h alive).width = w := rfl

theorem Grid.build_height (w h : Int) (alive : Int × Int → Bool) :
    (Grid.build w h alive).height = h := rfl

theorem Grid.wf_build (w h : Int) (alive : Int × Int → Bool) :
    (Grid.build w h alive).WF := by
  intro p
  have hc := Grid.build_cells w h alive p
  have hrect : (Grid.build w h alive).inRect p
      ↔ (0 ≤ p.1 ∧ p.1 < w ∧ 0 ≤ p.2 ∧ p.2 < h) := Iff.rfl
  refine ⟨⟨?_, ?_⟩, ?_⟩
  · intro hs
    rw [hc] at hs
    rw [hrect]
    by_cases hb : 0 ≤ p.1 ∧ p.1 < w ∧ 0 ≤ p.2 ∧ p.2 < h
    · exact hb
    · rw [if_neg hb] at hs; simp at hs
  · intro hr
    rw [hc, if_pos (hrect.mp hr)]; rfl
  · intro c hcell
    rw [hc] at hcell
    by_cases hb : 0 ≤ p.1 ∧ p.1 < w ∧ 0 ≤ p.2 ∧ p.2 < h
    · rw [if_pos hb] at hcell
      injection hcell with h2
      rw [← h2]
      exact ⟨rfl, rfl⟩
    · rw [if_neg hb] at hcell
      exact absurd hcell (by simp)


/-! ## Cells: coordinate preservation -/

theorem Cell.toggle_x (c : Cell) : c.toggle.x = c.x := rfl

theorem Cell.toggle_y (c : Cell) : c.toggle.y = c.y := rfl

theorem Cell.next_state_x (c : Cell) (n : Nat) : (c.next_state n).x = c.x := by
  obtain ⟨x, y, a⟩ := c
  cases a <;> rcases n with _ | _ | _ | _ | n <;> rfl

theorem Cell.next_state_y (c : Cell) (n : Nat) : (c.next_state n).y = c.y := by
  obtain ⟨x, y, a⟩ := c
  cases a <;> rcases n with _ | _ | _ | _ | n <;> rfl

/-! ## Inserting into a well-formed grid -/

theorem Grid.wf_insert {g : Grid} {k : Int × Int} {c : Cell} (hwf : g.WF)
    (hk : g.inRect k) (hx : c.x = k.1) (hy : c.y = k.2) :
    ({ g with cells := g.cells.insert k c } : Grid).WF := by
  intro p
  have hir : ({ g with cells := g.cells.insert k c } : Grid).inRect p
      ↔ g.inRect p := Iff.rfl
  by_cases hpk : p = k
  · subst hpk
    have hd' : (g.cells.insert p c) p = some c := by
      rw [CellMap.insert_apply]; simp
    refine ⟨⟨fun _ => hir.mpr hk, fun _ => ?_⟩, fun d hd => ?_⟩
    · show ((g.cells.insert p c) p).isSome = true
      rw [hd']; rfl
    · have hd2 : (g.cells.insert p c) p = some d := hd
      rw [hd'] at hd2
      injection hd2 with h1
      rw [← h1]; exact ⟨hx, hy⟩
  · have happ : (g.cells.insert k c) p = g.cells p := by
      rw [CellMap.insert_apply, if_neg hpk]
    obtain ⟨h1, h2⟩ := hwf p
    refine ⟨⟨fun hs => ?_, fun hr => ?_⟩, fun d hd => ?_⟩
    · refine hir.mpr (h1.mp ?_)
      have hs2 : ((g.cells.insert k c) p).isSome = true := hs
      rw [happ] at hs2; exact hs2
    · show ((g.cells.insert k c) p).isSome = true
      rw [happ]; exact h1.mpr (hir.mp hr)
    · have hd2 : (g.cells.insert k c) p = some d := hd
      rw [happ] at hd2
      exact h2 d hd2

theorem Grid.insert_self {g : Grid} {k : Int × Int} {c : Cell}
    (h : g.cells k = some c) :
    ({ g with cells := g.cells.insert k c } : Grid) = g := by
  cases g with
  | mk wd ht cs =>
      simp only [Grid.mk.injEq, true_and]
      funext p
      rw [CellMap.insert_apply]
      by_cases hpk : p = k
      · subst hpk; rw [if_pos rfl]; exact h.symm
      · rw [if_neg hpk]

/-! ## `Grid::next_state`: structure of the fold -/

theorem Grid.stepCell_width (g this : Grid) (k : Int × Int) :
    (g.stepCell this k).width = this.width := by
  cases hk : g.cells k <;> simp [Grid.stepCell, hk]

theorem Grid.stepCell_height (g this : Grid) (k : Int × Int) :
    (g.stepCell this k).height = this.height := by
  cases hk : g.cells k <;> simp [Grid.stepCell, hk]

theorem Grid.foldl_stepCell_width (g : Grid) :
    ∀ (order : List (Int × Int)) (this : Grid),
      (order.foldl g.stepCell this).width = this.width := by
  intro order
  induction order with
  | nil => intro this; rfl
  | cons k t ih =>
      intro this
      rw [List.foldl_cons, ih, Grid.stepCell_width]

theorem Grid.foldl_stepCell_height (g : Grid) :
    ∀ (order : List (Int × Int)) (this : Grid),
      (order.foldl g.stepCell this).height = this.height := by
  intro order
  induction order with
  | nil => intro this; rfl
  | cons k t ih =>
      intro this
      rw [List.foldl_cons, ih, Grid.stepCell_height]

theorem Grid.next_state_width (g : Grid) (order : List (Int × Int)) :
    (g.next_state order).width = g.width :=
  Grid.foldl_stepCell_width g order g

theorem Grid.next_state_height (g : Grid) (order : List (Int × Int)) :
    (g.next_state order).height = g.height :=
  Grid.foldl_stepCell_height g order g

theorem Grid.wf_stepCell {g this : Grid} (hg : g.WF) (hth : this.WF)
    (hw : this.width = g.width) (hh : this.height = g.height)
    (k : Int × Int) : (g.stepCell this k).WF := by
  cases hk : g.cells k with
  | none => simpa [Grid.stepCell, hk] using hth
  | some c =>
      have h1 : g.inRect k := (hg k).1.mp (by rw [hk]; rfl)
      have hcoord := (hg k).2 c hk
      have hthk : this.inRect k := by
        show 0 ≤ k.1 ∧ k.1 < this.width ∧ 0 ≤ k.2 ∧ k.2 < this.height
        rw [hw, hh]; exact h1
      have hx : (c.next_state (c.live_neighbours_count this)).x = k.1 := by
        rw [Cell.next_state_x]; exact hcoord.1
      have hy : (c.next_state (c.live_neighbours_count this)).y = k.2 := by
        rw [Cell.next_state_y]; exact hcoord.2
      have := Grid.wf_insert hth hthk hx hy
      simpa [Grid.stepCell, hk] using this

theorem Grid.wf_next_state {g : Grid} (hg : g.WF)
    (order : List (Int × Int)) : (g.next_state order).WF := by
  show (order.foldl g.stepCell g).WF
  have main : ∀ (t : List (Int × Int)) (this : Grid), this.WF →
      this.width = g.width → this.height = g.height →
      (t.foldl g.stepCell this).WF := by
    intro t
    induction t with
    | nil => intro this h _ _; exact h
    | cons k t ih =>
        intro this hth hw hh
        rw [List.foldl_cons]
        refine ih _ (Grid.wf_stepCell hg hth hw hh k) ?_ ?_
        · rw [Grid.stepCell_width]; exact hw
        · rw [Grid.stepCell_height]; exact hh
  exact main order g hg rfl rfl

theorem Grid.next_state_fixed {g : Grid}
    (hfix : ∀ k c, g.cells k = some c →
      c.next_state (c.live_neighbours_count g) = c)
    (order : List (Int × Int)) : g.next_state order = g := by
  show order.foldl g.stepCell g = g
  induction order with
  | nil => rfl
  | cons k t ih =>
      rw [List.foldl_cons]
      have hstep : g.stepCell g k = g := by
        cases hk : g.cells k with
        | none => simp [Grid.stepCell, hk]
        | some c =>
            simp only [Grid.stepCell, hk]
            rw [hfix k c hk]
            exact Grid.insert_self hk
      rw [hstep]; exact ih

/-! ## `Grid::from_seed`: structure of the fold -/

theorem Grid.foldlM_seedStep_none :
    ∀ (seeds : List (Int × Int)) (g : Grid), g.WF →
      (∃ q ∈ seeds, ¬ g.inRect q) →
      seeds.foldlM Grid.seedStep g = none := by
  intro seeds
  induction seeds with
  | nil =>
      rintro g _ ⟨q, hq, _⟩
      simp at hq
  | cons s t ih =>
      rintro g hwf ⟨q, hq, hqout⟩
      rw [List.foldlM_cons]
      cases hs : g.cells s with
      | none =>
          have hstep : g.seedStep s = none := by simp [Grid.seedStep, hs]
          rw [hstep]; rfl
      | some c =>
          have hstep : g.seedStep s
              = some { g with cells := g.cells.insert s c.toggle } := by
            simp [Grid.seedStep, hs]
          rw [hstep]
          show t.foldlM Grid.seedStep
              ({ g with cells := g.cells.insert s c.toggle }) = none
          have hrs : g.inRect s := (hwf s).1.mp (by rw [hs]; rfl)
          have hq' : q ∈ t := by
            rcases List.mem_cons.mp hq with h1 | h1
            · rw [h1] at hqout; exact absurd hrs hqout
            · exact h1
          have hwf1 : Grid.WF { g with cells := g.cells.insert s c.toggle } :=
            Grid.wf_insert hwf hrs
              (by rw [Cell.toggle_x]; exact ((hwf s).2 c hs).1)
              (by rw [Cell.toggle_y]; exact ((hwf s).2 c hs).2)
          exact ih _ hwf1 ⟨q, hq', hqout⟩

theorem Grid.foldlM_seedStep_some :
    ∀ (seeds : List (Int × Int)) (g : Grid), g.WF → seeds.Nodup →
      (∀ q ∈ seeds, g.inRect q) →
      ∃ g', seeds.foldlM Grid.seedStep g = some g'
        ∧ g'.width = g.width ∧ g'.height = g.height ∧ g'.WF
        ∧ ∀ p, g'.cells p
            = if p ∈ seeds then (g.cells p).map Cell.toggle else g.cells p := by
  intro seeds
  induction seeds with
  | nil =>
      intro g hwf _ _
      exact ⟨g, rfl, rfl, rfl, hwf, fun p => by simp⟩
  | cons s t ih =>
      intro g hwf hnd hin
      obtain ⟨hst, hndt⟩ := List.nodup_cons.mp hnd
      have hrs : g.inRect s := hin s (List.mem_cons_self s t)
      obtain ⟨c, hs⟩ : ∃ c, g.cells s = some c := by
        have := (hwf s).1.mpr hrs
        cases hcs : g.cells s with
        | none => rw [hcs] at this; exact absurd this (by simp)
        | some c => exact ⟨c, rfl⟩
      have hwf1 : Grid.WF { g with cells := g.cells.insert s c.toggle } :=
        Grid.wf_insert hwf hrs
          (by rw [Cell.toggle_x]; exact ((hwf s).2 c hs).1)
          (by rw [Cell.toggle_y]; exact ((hwf s).2 c hs).2)
      obtain ⟨g', heq, hw, hh, hwf', hcells⟩ :=
        ih { g with cells := g.cells.insert s c.toggle } hwf1 hndt
          (fun q hq => hin q (List.mem_cons_of_mem s hq))
      refine ⟨g', ?_, hw, hh, hwf', ?_⟩
      · rw [List.foldlM_cons]
        have hstep : g.seedStep s
            = some { g with cells := g.cells.insert s c.toggle } := by
          simp [Grid.seedStep, hs]
        rw [hstep]
        exact heq
      · intro p
        rw [hcells p]
        by_cases hps : p = s
        · subst hps
          have hpt : p ∉ t := hst
          rw [if_neg hpt, if_pos (List.mem_cons_self p t)]
          show (g.cells.insert p c.toggle) p = (g.cells p).map Cell.toggle
          rw [CellMap.insert_apply, if_pos rfl, hs]
          rfl
        · have happ : ({ g with cells := g.cells.insert s c.toggle } : Grid).cells p
              = g.cells p := by
            show (g.cells.insert s c.toggle) p = g.cells p
            rw [CellMap.insert_apply, if_neg hps]
          rw [happ]
          by_cases hpt : p ∈ t
          · rw [if_pos hpt, if_pos (List.mem_cons_of_mem s hpt)]
          · rw [if_neg hpt, if_neg (by
              intro hmem
              rcases List.mem_cons.mp hmem with h1 | h1
              · exact hps h1
              · exact hpt h1)]

theorem Grid.foldlM_seedStep_wf :
    ∀ (seeds : List (Int × Int)) (g g' : Grid), g.WF →
      seeds.foldlM Grid.seedStep g = some g' →
      g'.WF ∧ g'.width = g.width ∧ g'.height = g.height := by
  intro seeds
  induction seeds with
  | nil =>
      intro g g' hwf heq
      have : g = g' := by
        rw [List.foldlM_nil] at heq
        exact Option.some.inj heq
      rw [← this]; exact ⟨hwf, rfl, rfl⟩
  | cons s t ih =>
      intro g g' hwf heq
      rw [List.foldlM_cons] at heq
      cases hs : g.cells s with
      | none =>
          have hstep : g.seedStep s = none := by simp [Grid.seedStep, hs]
          rw [hstep] at heq
          exact absurd heq (by simp)
      | some c =>
          have hstep : g.seedStep s
              = some { g with cells := g.cells.insert s c.toggle } := by
            simp [Grid.seedStep, hs]
          rw [hstep] at heq
          have hrs : g.inRect s := (hwf s).1.mp (by rw [hs]; rfl)
          have hwf1 : Grid.WF { g with cells := g.cells.insert s c.toggle } :=
            Grid.wf_insert hwf hrs
              (by rw [Cell.toggle_x]; exact ((hwf s).2 c hs).1)
              (by rw [Cell.toggle_y]; exact ((hwf s).2 c hs).2)
          exact ih { g with cells := g.cells.insert s c.toggle } g' hwf1 heq

theorem Grid.from_seed_wf {w h : Int} {seeds : List (Int × Int)} {g : Grid}
    (hfs : Grid.from_seed w h seeds = some g) :
    g.WF ∧ g.width = w ∧ g.height = h :=
  Grid.foldlM_seedStep_wf seeds (Grid.new w h) g
    (Grid.wf_build w h (fun _ => false)) hfs

/-! ## Claim theorems -/

/-- C2: for every cell `c` and every live-neighbour count `n`,
`Cell::next_state(c, n)` follows the classic rule table: the result is
alive iff (`c` alive and `n ∈ {2, 3}`) or (`c` dead and `n = 3`), and dead
otherwise.  Proved for all `n : Nat`, which subsumes the claimed range
`0..8`. -/
theorem cell_next_state_rule_table (c : Cell) (n : Nat) :
    (c.next_state n).is_alive = true
      ↔ ((c.is_alive = true ∧ (n = 2 ∨ n = 3))
          ∨ (c.is_alive = false ∧ n = 3)) := by
  obtain ⟨x, y, a⟩ := c
  cases a <;> rcases n with _ | _ | _ | _ | n <;>
    simp [Cell.next_state]

/-- C3: for a well-formed grid and a cell stored in it, the neighbour list
returned by `Cell::neighbours` consists exactly of the cells stored at the
eight Moore offsets that lie inside the populated rectangle (offsets
outside contribute nothing, no wraparound), and
`Cell::live_neighbours_count` equals the number of those neighbours whose
`is_alive` is true.  Both functions are pure Lean functions of the grid,
so they have no side effects on it. -/
theorem cell_neighbours_moore_clipped (g : Grid) (c : Cell) (x y : Int)
    (hwf : g.WF) (_hc : g.cell x y = some c) :
    (∀ d : Cell, d ∈ c.neighbours g
        ↔ ∃ q ∈ c.offsets, g.inRect q ∧ g.cells q = some d)
    ∧ c.live_neighbours_count g
        = (c.neighbours g).countP (fun d => d.is_alive) := by
  constructor
  · intro d
    constructor
    · intro hd
      rw [Cell.neighbours, List.mem_filterMap] at hd
      obtain ⟨q, hq, hlook⟩ := hd
      have hlook' : g.cells q = some d := hlook
      exact ⟨q, hq, (hwf q).1.mp (by rw [hlook']; rfl), hlook'⟩
    · rintro ⟨q, hq, _, hlook⟩
      rw [Cell.neighbours, List.mem_filterMap]
      exact ⟨q, hq, hlook⟩
  · rw [Cell.live_neighbours_count, List.countP_eq_length_filter]

theorem cell_neighbours_moore_clipped_witness :
    (Grid.new 3 3).WF
    ∧ (Grid.new 3 3).cell 1 1 = some (Cell.new 1 1 false)
    ∧ ((∀ d : Cell, d ∈ (Cell.new 1 1 false).neighbours (Grid.new 3 3)
          ↔ ∃ q ∈ (Cell.new 1 1 false).offsets,
              (Grid.new 3 3).inRect q ∧ (Grid.new 3 3).cells q = some d)
        ∧ (Cell.new 1 1 false).live_neighbours_count (Grid.new 3 3)
            = ((Cell.new 1 1 false).neighbours (Grid.new 3 3)).countP
                (fun d => d.is_alive)) :=
  ⟨Grid.wf_build 3 3 (fun _ => false), by decide,
    cell_neighbours_moore_clipped (Grid.new 3 3) (Cell.new 1 1 false) 1 1
      (Grid.wf_build 3 3 (fun _ => false)) (by decide)⟩

/-- C5 counterexample: `from_seed` *toggles* each listed coordinate instead
of setting it alive, so the duplicated in-bounds coordinate `(1, 1)` in
`from_seed(5, 5, [(1,1), (1,1)])` ends up dead, refuting the claim for
arbitrary lists of in-bounds live coordinates. -/
theorem from_seed_duplicate_counterexample :
    ∃ g, Grid.from_seed 5 5 [(1, 1), (1, 1)] = some g
      ∧ (g.cells (1, 1)).map Cell.is_alive = some false :=
  ⟨(Grid.from_seed 5 5 [(1, 1), (1, 1)]).getD (Grid.new 5 5), rfl, by decide⟩

/-- C5 (amended): for every width, height and *duplicate-free* list of
in-bounds coordinates, `from_seed` creates an all-dead grid of the given
size and sets exactly the listed coordinates alive; in particular
`from_seed(5,5,[(1,1),(2,2)])` (see the witness) leaves the other 23 cells
dead. -/
theorem from_seed_nodup_sets_alive (w h : Int) (seeds : List (Int × Int))
    (hnd : seeds.Nodup)
    (hin : ∀ q ∈ seeds, 0 ≤ q.1 ∧ q.1 < w ∧ 0 ≤ q.2 ∧ q.2 < h) :
    ∃ g, Grid.from_seed w h seeds = some g
      ∧ g.width = w ∧ g.height = h
      ∧ ∀ p : Int × Int, g.cells p
          = if 0 ≤ p.1 ∧ p.1 < w ∧ 0 ≤ p.2 ∧ p.2 < h
            then some (Cell.new p.1 p.2 (decide (p ∈ seeds))) else none := by
  obtain ⟨g, heq, hw, hh, _hwf, hcells⟩ :=
    Grid.foldlM_seedStep_some seeds (Grid.new w h)
      (Grid.wf_build w h (fun _ => false)) hnd (fun q hq => hin q hq)
  refine ⟨g, heq, hw, hh, ?_⟩
  intro p
  rw [hcells p]
  have hb : (Grid.new w h).cells p
      = if 0 ≤ p.1 ∧ p.1 < w ∧ 0 ≤ p.2 ∧ p.2 < h
        then some (Cell.new p.1 p.2 false) else none :=
    Grid.build_cells w h (fun _ => false) p
  by_cases hp : 0 ≤ p.1 ∧ p.1 < w ∧ 0 ≤ p.2 ∧ p.2 < h
  · have hsomep : (Grid.new w h).cells p = some (Cell.new p.1 p.2 false) := by
      rw [hb, if_pos hp]
    by_cases hps : p ∈ seeds
    · rw [if_pos hps, if_pos hp, hsomep]
      simp [Cell.toggle, Cell.new, hps]
    · rw [if_neg hps, if_pos hp, hsomep]
      simp [Cell.new, hps]
  · have hnonep : (Grid.new w h).cells p = none := by
      rw [hb, if_neg hp]
    rw [if_neg hp]
    by_cases hps : p ∈ seeds <;> simp [hps, hnonep]

theorem from_seed_nodup_sets_alive_witness :
    ([((1 : Int), (1 : Int)), (2, 2)].Nodup)
    ∧ (∀ q ∈ [((1 : Int), (1 : Int)), (2, 2)],
        0 ≤ q.1 ∧ q.1 < 5 ∧ 0 ≤ q.2 ∧ q.2 < 5)
    ∧ ∃ g, Grid.from_seed 5 5 [(1, 1), (2, 2)] = some g
        ∧ g.width = 5 ∧ g.height = 5
        ∧ ∀ p : Int × Int, g.cells p
            = if 0 ≤ p.1 ∧ p.1 < 5 ∧ 0 ≤ p.2 ∧ p.2 < 5
              then some (Cell.new p.1 p.2
                (decide (p ∈ [((1 : Int), (1 : Int)), (2, 2)]))) else none :=
  ⟨by decide, by decide,
    from_seed_nodup_sets_alive 5 5 [(1, 1), (2, 2)] (by decide) (by decide)⟩

/-- C1 (refuted on the code): `blinkerBadOrder` is a genuine iteration
order — a permutation of the 5×5 key set — yet `Grid::next_state` run with
it produces a live cell at `(1, 1)` on the blinker grid, while the spec's
simultaneous reference update `Grid.specNext` leaves `(1, 1)` dead.  The
transition therefore does read other cells' already-updated states: the
neighbour counts are taken from the buffer `this` that the loop itself is
updating, not from the pre-transition snapshot. -/
theorem next_state_buffer_read_divergence :
    blinkerBadOrder.Perm (rectKeys 5 5)
    ∧ ((blinkerGrid.next_state blinkerBadOrder).cells (1, 1)).map Cell.is_alive
        = some true
    ∧ (blinkerGrid.specNext.cells (1, 1)).map Cell.is_alive = some false :=
  ⟨by decide, by decide, by decide⟩

/-- C6 (refuted on the code): on the 5×5 blinker, `Grid::next_state` with
the realizable iteration order `blinkerBadOrder` leaves `(1, 1)` alive,
which is not a cell of the claimed vertical column `[(2,1),(2,2),(2,3)]`;
the intended simultaneous update (`Grid.specNext`) does produce exactly
that column after one step and the original row again after two. -/
theorem blinker_one_step_divergence :
    ((blinkerGrid.next_state blinkerBadOrder).cells (1, 1)).map Cell.is_alive
      = some true
    ∧ ((1, 1) ∉ [((2 : Int), (1 : Int)), (2, 2), (2, 3)])
    ∧ ((rectKeys 5 5).all (fun p =>
        decide ((blinkerGrid.specNext.cells p).map Cell.is_alive
          = some (decide (p ∈ [((2 : Int), (1 : Int)), (2, 2), (2, 3)]))))
        = true)
    ∧ ((rectKeys 5 5).all (fun p =>
        decide ((blinkerGrid.specNext.specNext.cells p).map Cell.is_alive
          = (blinkerGrid.cells p).map Cell.is_alive)) = true) :=
  ⟨by decide, by decide, by decide, by decide⟩

/-- The 2×2 block is a pointwise fixed point of the transition: every cell
stored in `blockGrid` is mapped to itself by the rule, with the neighbour
count taken from `blockGrid` itself. -/
theorem blockGrid_fix :
    ∀ k c, blockGrid.cells k = some c →
      c.next_state (c.live_neighbours_count blockGrid) = c := by
  have hFS : Grid.from_seed 4 4 [(1, 1), (2, 1), (1, 2), (2, 2)]
      = some blockGrid := rfl
  obtain ⟨hwf, hw, hh⟩ := Grid.from_seed_wf hFS
  intro k c hk
  have hirect : blockGrid.inRect k := (hwf k).1.mp (by rw [hk]; rfl)
  have hmem : k ∈ rectKeys 4 4 := by
    rw [mem_rectKeys]
    obtain ⟨h1, h2, h3, h4⟩ := hirect
    rw [hw] at h2
    rw [hh] at h4
    exact ⟨h1, h2, h3, h4⟩
  have hall : ∀ q ∈ rectKeys 4 4,
      (blockGrid.cells q).map
          (fun d => d.next_state (d.live_neighbours_count blockGrid))
        = blockGrid.cells q := by decide
  have h2 := hall k hmem
  rw [hk] at h2
  simp only [Option.map_some'] at h2
  exact Option.some.inj h2

/-- C7: the 4×4 grid seeded with the 2×2 block `[(1,1),(2,1),(1,2),(2,2)]`
is a fixed point of `Grid::next_state` for *every* iteration order (hence
for the real `HashMap` orders), and remains unchanged after any number of
further advances. -/
theorem block_still_life_preserved :
    Grid.from_seed 4 4 [(1, 1), (2, 1), (1, 2), (2, 2)] = some blockGrid
    ∧ (∀ order : List (Int × Int), blockGrid.next_state order = blockGrid)
    ∧ ∀ orders : List (List (Int × Int)),
        orders.foldl (fun g o => g.next_state o) blockGrid = blockGrid := by
  refine ⟨rfl, fun order => Grid.next_state_fixed blockGrid_fix order, ?_⟩
  intro orders
  induction orders with
  | nil => rfl
  | cons o t ih =>
      rw [List.foldl_cons, Grid.next_state_fixed blockGrid_fix o]
      exact ih

/-- C4: `toggle_cell` fails (the source panics with
`GridError::CellOutOfBoundsError`, modelled `none`) when the coordinate
has no entry in the grid's rectangle, and `from_seed` fails (the source
panics on `Option::unwrap`, modelled `none`) — rather than silently
ignoring — whenever any listed coordinate is outside the grid bounds. -/
theorem out_of_bounds_rejected (g : Grid) (x y : Int) (w h : Int)
    (seeds : List (Int × Int)) (q : Int × Int)
    (hwf : g.WF) (hout : ¬ g.inRect (x, y))
    (hq : q ∈ seeds) (hqout : ¬ (0 ≤ q.1 ∧ q.1 < w ∧ 0 ≤ q.2 ∧ q.2 < h)) :
    g.toggle_cell x y = none ∧ Grid.from_seed w h seeds = none := by
  constructor
  · have hcell : g.cell x y = none := by
      cases hcase : g.cell x y with
      | none => rfl
      | some c =>
          have hsome : (g.cells (x, y)).isSome = true := by
            have : g.cells (x, y) = some c := hcase
            rw [this]; rfl
          exact absurd ((hwf (x, y)).1.mp hsome) hout
    simp [Grid.toggle_cell, hcell]
  · apply Grid.foldlM_seedStep_none seeds (Grid.new w h)
      (Grid.wf_build w h (fun _ => false))
    exact ⟨q, hq, fun hr => hqout hr⟩

theorem out_of_bounds_rejected_witness :
    (Grid.new 2 2).WF
    ∧ ¬ (Grid.new 2 2).inRect (2, 0)
    ∧ ((2, 0) ∈ [((2 : Int), (0 : Int))])
    ∧ ¬ (0 ≤ (2 : Int) ∧ (2 : Int) < 2 ∧ 0 ≤ (0 : Int) ∧ (0 : Int) < 2)
    ∧ ((Grid.new 2 2).toggle_cell 2 0 = none
        ∧ Grid.from_seed 2 2 [(2, 0)] = none) :=
  ⟨Grid.wf_build 2 2 (fun _ => false), by decide, by decide, by decide,
    out_of_bounds_rejected (Grid.new 2 2) 2 0 2 2 [(2, 0)] (2, 0)
      (Grid.wf_build 2 2 (fun _ => false)) (by decide) (by decide) (by decide)⟩

/-- C9: on a well-formed grid, the lookups `cell` and `cell_neighbors`
never fail: they return `some` exactly on the populated rectangle and
`none` outside it, and `cell_neighbors` returns the stored cell's
neighbour list.  Both are pure functions of the grid, so repeated calls
without an intervening mutation trivially return identical results. -/
theorem lookup_total_and_consistent (g : Grid) (x y : Int) (hwf : g.WF) :
    ((g.cell x y).isSome ↔ g.inRect (x, y))
    ∧ ((g.cell_neighbors x y).isSome ↔ g.inRect (x, y))
    ∧ (∀ c, g.cell x y = some c →
        g.cell_neighbors x y = some (c.neighbours g)) := by
  have h1 := (hwf (x, y)).1
  have heq : (g.cell_neighbors x y).isSome = (g.cell x y).isSome := by
    cases hc : g.cell x y <;> simp [Grid.cell_neighbors, hc]
  refine ⟨h1, ?_, ?_⟩
  · rw [show ((g.cell_neighbors x y).isSome = true)
        = ((g.cell x y).isSome = true) from by rw [heq]]
    exact h1
  · intro c hc
    simp [Grid.cell_neighbors, hc]

theorem lookup_total_and_consistent_witness :
    (Grid.new 3 3).WF
    ∧ ((((Grid.new 3 3).cell 5 0).isSome ↔ (Grid.new 3 3).inRect (5, 0))
        ∧ (((Grid.new 3 3).cell_neighbors 5 0).isSome
            ↔ (Grid.new 3 3).inRect (5, 0))
        ∧ (∀ c, (Grid.new 3 3).cell 5 0 = some c →
            (Grid.new 3 3).cell_neighbors 5 0 = some (c.neighbours (Grid.new 3 3)))) :=
  ⟨Grid.wf_build 3 3 (fun _ => false),
    lookup_total_and_consistent (Grid.new 3 3) 5 0
      (Grid.wf_build 3 3 (fun _ => false))⟩

/-- C10 (implicit frame property): `toggle_cell` at a stored coordinate
succeeds, negates only the `is_alive` flag of the cell at that key (its
coordinates, every other entry, and the grid's width and height are
unchanged), and toggling the same coordinate again restores the original
grid. -/
theorem toggle_cell_frame (g : Grid) (x y : Int) (c : Cell)
    (hc : g.cell x y = some c) :
    ∃ g', g.toggle_cell x y = some g'
      ∧ g'.width = g.width ∧ g'.height = g.height
      ∧ g'.cells (x, y) = some { c with is_alive := !c.is_alive }
      ∧ (∀ q, q ≠ (x, y) → g'.cells q = g.cells q)
      ∧ g'.toggle_cell x y = some g := by
  refine ⟨{ g with cells := g.cells.insert (x, y) c.toggle },
    ?_, rfl, rfl, ?_, ?_, ?_⟩
  · simp [Grid.toggle_cell, hc]
  · show (g.cells.insert (x, y) c.toggle) (x, y) = _
    rw [CellMap.insert_apply, if_pos rfl]
    rfl
  · intro q hq
    show (g.cells.insert (x, y) c.toggle) q = g.cells q
    rw [CellMap.insert_apply, if_neg hq]
  · have htt : c.toggle.toggle = c := by
      obtain ⟨cx, cy, ca⟩ := c
      simp [Cell.toggle]
    have hc' : ({ g with cells := g.cells.insert (x, y) c.toggle } : Grid).cell x y
        = some c.toggle := by
      show (g.cells.insert (x, y) c.toggle) (x, y) = some c.toggle
      rw [CellMap.insert_apply, if_pos rfl]
    have hgrid :
        ({ g with cells := (g.cells.insert (x, y) c.toggle).insert (x, y) c } : Grid)
          = g := by
      cases g with
      | mk wd ht cs =>
          simp only [Grid.mk.injEq, true_and]
          funext p
          rw [CellMap.insert_apply]
          by_cases hp : p = (x, y)
          · rw [if_pos hp, hp]
            exact hc.symm
          · rw [if_neg hp, CellMap.insert_apply, if_neg hp]
    simp only [Grid.toggle_cell, hc']
    rw [htt]
    exact congrArg some hgrid

theorem toggle_cell_frame_witness :
    (Grid.new 2 2).cell 0 0 = some (Cell.new 0 0 false)
    ∧ ∃ g', (Grid.new 2 2).toggle_cell 0 0 = some g'
        ∧ g'.width = (Grid.new 2 2).width ∧ g'.height = (Grid.new 2 2).height
        ∧ g'.cells (0, 0)
            = some { Cell.new 0 0 false with
                is_alive := !(Cell.new 0 0 false).is_alive }
        ∧ (∀ q, q ≠ ((0 : Int), (0 : Int)) → g'.cells q = (Grid.new 2 2).cells q)
        ∧ g'.toggle_cell 0 0 = some (Grid.new 2 2) :=
  ⟨by decide,
    toggle_cell_frame (Grid.new 2 2) 0 0 (Cell.new 0 0 false) (by decide)⟩

/-- C8: the structural invariant (`Grid.WF`: an entry exists exactly at
each coordinate of the `[0,width) × [0,height)` rectangle, exactly one per
key by the map representation, and each stored cell's own fields equal its
key) holds for every constructor result — `new`, `random` (any draws),
successful `from_seed` — and is preserved by successful `toggle_cell` and
by `next_state` under every iteration order. -/
theorem grid_invariant_preserved (w h : Int) (coin : Int × Int → Bool)
    (seeds : List (Int × Int)) (g g1 g2 : Grid) (x y : Int)
    (order : List (Int × Int))
    (hseed : Grid.from_seed w h seeds = some g1)
    (hwf : g.WF) (htog : g.toggle_cell x y = some g2) :
    (Grid.new w h).WF ∧ (Grid.random w h coin).WF
    ∧ g1.WF ∧ g2.WF ∧ (g.next_state order).WF := by
  refine ⟨Grid.wf_build w h (fun _ => false), Grid.wf_build w h coin,
    (Grid.from_seed_wf hseed).1, ?_, Grid.wf_next_state hwf order⟩
  cases hc : g.cell x y with
  | none => simp [Grid.toggle_cell, hc] at htog
  | some c =>
      have hg2 : g2 = { g with cells := g.cells.insert (x, y) c.toggle } := by
        simp only [Grid.toggle_cell, hc, Option.some.injEq] at htog
        exact htog.symm
      have hsome : (g.cells (x, y)).isSome = true := by
        have : g.cells (x, y) = some c := hc
        rw [this]; rfl
      rw [hg2]
      exact Grid.wf_insert hwf ((hwf (x, y)).1.mp hsome)
        (by rw [Cell.toggle_x]; exact ((hwf (x, y)).2 c hc).1)
        (by rw [Cell.toggle_y]; exact ((hwf (x, y)).2 c hc).2)

theorem grid_invariant_preserved_witness :
    Grid.from_seed 2 2 [(0, 0)]
      = some ((Grid.from_seed 2 2 [(0, 0)]).getD (Grid.new 2 2))
    ∧ (Grid.new 2 2).WF
    ∧ (Grid.new 2 2).toggle_cell 0 0
        = some (((Grid.new 2 2).toggle_cell 0 0).getD (Grid.new 2 2))
    ∧ ((Grid.new 2 2).WF ∧ (Grid.random 2 2 (fun _ => true)).WF
        ∧ ((Grid.from_seed 2 2 [(0, 0)]).getD (Grid.new 2 2)).WF
        ∧ (((Grid.new 2 2).toggle_cell 0 0).getD (Grid.new 2 2)).WF
        ∧ ((Grid.new 2 2).next_state [(0, 0)]).WF) :=
  ⟨rfl, Grid.wf_build 2 2 (fun _ => false), rfl,
    grid_invariant_preserved 2 2 (fun _ => true) [(0, 0)]
      (Grid.new 2 2) ((Grid.from_seed 2 2 [(0, 0)]).getD (Grid.new 2 2))
      (((Grid.new 2 2).toggle_cell 0 0).getD (Grid.new 2 2)) 0 0 [(0, 0)]
      rfl (Grid.wf_build 2 2 (fun _ => false)) rfl⟩
